import Mathlib

/-!
Shallow embedding of the BugReportService deduplication core
(src/controllers/BugReportController.ts) and proofs of its specified
properties: fingerprint generation, duplicate resolution, the submit and
update operations on the ghp_bug_reports store, and the canonical/duplicate
bookkeeping invariants.
-/

namespace BRS

/-- JS strings are modelled as lists of characters. -/
abbrev Str := List Char

/-- The ECMAScript WhiteSpace and LineTerminator characters, the set matched
by the regex class \s and removed by String.prototype.trim. -/
def jsWhitespace (c : Char) : Prop :=
  c.toNat = 9 ∨ c.toNat = 10 ∨ c.toNat = 11 ∨ c.toNat = 12 ∨ c.toNat = 13 ∨
  c.toNat = 32 ∨ c.toNat = 160 ∨ c.toNat = 5760 ∨
  (8192 ≤ c.toNat ∧ c.toNat ≤ 8202) ∨
  c.toNat = 8232 ∨ c.toNat = 8233 ∨ c.toNat = 8239 ∨ c.toNat = 8287 ∨
  c.toNat = 12288 ∨ c.toNat = 65279

instance (c : Char) : Decidable (jsWhitespace c) := by
  unfold jsWhitespace; exact inferInstance

/-- The character class kept by the .replace of every character outside
[a-z0-9\s] with the empty string. -/
def keptChar (c : Char) : Prop :=
  (97 ≤ c.toNat ∧ c.toNat ≤ 122) ∨ (48 ≤ c.toNat ∧ c.toNat ≤ 57) ∨ jsWhitespace c

instance (c : Char) : Decidable (keptChar c) := by
  unfold keptChar; exact inferInstance

/-- String.prototype.toLowerCase, modelled on the Basic Latin range (the
characters the subsequent strip can keep are unaffected by the difference). -/
def jsToLower (c : Char) : Char :=
  if 65 ≤ c.toNat ∧ c.toNat ≤ 90 then Char.ofNat (c.toNat + 32) else c

def jsTrimLeft (l : Str) : Str := l.dropWhile (fun c => decide (jsWhitespace c))

def jsTrimRight (l : Str) : Str :=
  (l.reverse.dropWhile (fun c => decide (jsWhitespace c))).reverse

/-- String.prototype.trim. -/
def jsTrim (l : Str) : Str := jsTrimRight (jsTrimLeft l)

/-- The description normalization inside generateFingerprint: lowercase,
strip characters outside [a-z0-9\s], trim, take the first 200 characters. -/
def jsNormalize (description : Str) : Str :=
  (jsTrim ((description.map jsToLower).filter (fun c => decide (keptChar c)))).take 200

/-- The composed hash input: appId + ":" + normalized + ":" + (screenName or ""). -/
def fpInput (appId description : Str) (screenName : Option Str) : Str :=
  appId ++ ':' :: (jsNormalize description ++ ':' :: screenName.getD [])

/-- generateFingerprint. The SHA-256 hex digest is kept abstract as a function
parameter; the code takes the first 64 hex characters of the digest, which for
a SHA-256 hex digest (exactly 64 characters) is the whole digest. -/
def generateFingerprint (hash : Str → Str) (appId description : Str)
    (screenName : Option Str) : Str :=
  (hash (fpInput appId description screenName)).take 64

/-- One row of ghp_bug_reports. Record ids and timestamps are modelled as
naturals; uuid ids are never falsy JS strings, so the id || null coercions in
the controller are identities on present rows. -/
structure BugReport where
  id : Nat
  app_id : Str
  user_id : Option Str
  description : Str
  priority : Str
  status : Str
  screenshot_url : Option Str
  screenshot_urls : Option (List Str)
  app_version : Option Str
  build_number : Option Str
  ios_version : Option Str
  device_model : Option Str
  screen_name : Option Str
  fingerprint : Str
  canonical_id : Option Nat
  duplicate_count : Nat
  fix_status : Option Str
  suggested_fix : Option Str
  claude_analysis : Option Str
  created_at : Nat
  deriving DecidableEq, Repr

/-- The durable store: the table rows plus the next fresh id. -/
structure Store where
  reports : List BugReport
  nextId : Nat
  deriving DecidableEq, Repr

/-- The supabase-js response shape: a data field and an error field. Postgrest
errors are returned in the error field, never thrown. -/
structure QueryResp (α : Type) where
  data : Option α
  error : Option Str
  deriving DecidableEq, Repr

/-- The trailing dedup window. The code computes it by calendar-day
subtraction; it is modelled as a fixed duration in milliseconds. -/
def sevenDays : Nat := 7 * 24 * 60 * 60 * 1000

/-- The filter clauses of the findDuplicate query: fingerprint equality,
tenant (app_id) equality, created_at >= now - 7 days (inclusive lower bound),
and canonical_id is null. -/
def dedupMatches (reports : List BugReport) (fp appId : Str) (now : Nat) :
    List BugReport :=
  reports.filter (fun r =>
    decide (r.fingerprint = fp ∧ r.app_id = appId ∧
            now - sevenDays ≤ r.created_at ∧ r.canonical_id = none))

/-- Order by created_at ascending with limit 1: the first-listed row among
those with minimal creation time. -/
def earliestCreated : List BugReport → Option BugReport
  | [] => none
  | r :: rs =>
    match earliestCreated rs with
    | none => some r
    | some b => some (if r.created_at ≤ b.created_at then r else b)

/-- The findDuplicate store query. On an infrastructure failure data is null
and error is set; when no row matches, .single() reports PGRST116 in error. -/
def dedupQuery (reports : List BugReport) (fp appId : Str) (now : Nat)
    (fails : Bool) : QueryResp Nat :=
  if fails then { data := none, error := some "store unreachable".toList }
  else
    match earliestCreated (dedupMatches reports fp appId now) with
    | some r => { data := some r.id, error := none }
    | none => { data := none, error := some "PGRST116".toList }

/-- findDuplicate destructures only data from the response, so the error
field, infrastructure failures included, is dropped and a failed lookup is
indistinguishable from no match. -/
def findDuplicate (reports : List BugReport) (fp appId : Str) (now : Nat)
    (fails : Bool) : Option Nat :=
  (dedupQuery reports fp appId now fails).data

/-- Modelled from the spec: the stored procedure increment_bug_duplicate_count
is not under src; per the spec it performs a single atomic
SET duplicate_count = duplicate_count + 1 on the addressed record. -/
def incOne (cid : Nat) (r : BugReport) : BugReport :=
  if r.id = cid then { r with duplicate_count := r.duplicate_count + 1 } else r

/-- Modelled from the spec: the effect of increment_bug_duplicate_count on the
whole table. -/
def incrementDupCount (reports : List BugReport) (cid : Nat) : List BugReport :=
  reports.map (incOne cid)

/-- The rpc call issued by submit: on failure the store is unchanged and error
is set. The controller awaits the call without inspecting the result. -/
def rpcIncrement (reports : List BugReport) (cid : Nat) (fails : Bool) :
    QueryResp Unit × List BugReport :=
  if fails then ({ data := none, error := some "rpc failed".toList }, reports)
  else ({ data := some (), error := none }, incrementDupCount reports cid)

/-- JS value || null on an optional string: the empty string is falsy. -/
def orNull (o : Option Str) : Option Str :=
  match o with
  | some s => if s = [] then none else some s
  | none => none

def priorities : List Str := ["low".toList, "medium".toList, "high".toList]

/-- The submit request body, after transport decoding. screenshotUrls is the
list of urls produced by the (externally effectful, non-fatal) upload loop. -/
structure SubmitInput where
  appId : Str
  description : Str
  priority : Str
  screenName : Option Str
  userId : Option Str
  screenshotUrls : List Str
  appVersion : Option Str
  buildNumber : Option Str
  iosVersion : Option Str
  deviceModel : Option Str
  deriving DecidableEq, Repr

/-- Which store operations fail in a given run (infrastructure faults). -/
structure Failures where
  lookupFails : Bool
  insertFails : Bool
  incrementFails : Bool
  deriving DecidableEq, Repr

def noFailures : Failures := ⟨false, false, false⟩

inductive SubmitResp where
  | badRequest (msg : Str)
  | serverError (msg : Str)
  | created (id : Nat) (status : Str) (isDuplicate : Bool)
      (canonicalId : Option Nat) (screenshotCount : Nat)
  deriving DecidableEq, Repr

/-- The row handed to .insert by submitBugReport. -/
def mkNewReport (now : Nat) (inp : SubmitInput) (s : Store) (fp : Str)
    (existing : Option Nat) : BugReport :=
  { id := s.nextId
    app_id := inp.appId
    user_id := inp.userId
    description := jsTrim inp.description
    priority := inp.priority
    status := if existing.isSome then "duplicate".toList else "open".toList
    screenshot_url := inp.screenshotUrls.head?
    screenshot_urls := if inp.screenshotUrls.isEmpty then none else some inp.screenshotUrls
    app_version := orNull inp.appVersion
    build_number := orNull inp.buildNumber
    ios_version := orNull inp.iosVersion
    device_model := orNull inp.deviceModel
    screen_name := orNull inp.screenName
    fingerprint := fp
    canonical_id := existing
    duplicate_count := if existing.isSome then 0 else 1
    fix_status := none
    suggested_fix := none
    claude_analysis := none
    created_at := now }

/-- BugReportController.submitBugReport: validate, fingerprint, resolve a
canonical match, insert, and conditionally issue the rpc increment (whose
result the controller discards). -/
def submitBugReport (hash : Str → Str) (now : Nat) (f : Failures)
    (inp : SubmitInput) (s : Store) : SubmitResp × Store :=
  if inp.appId = [] then
    (.badRequest "appId is required".toList, s)
  else if inp.description = [] ∨ (jsTrim inp.description).length < 5 then
    (.badRequest "description is required (min 5 characters)".toList, s)
  else if inp.priority ∉ priorities then
    (.badRequest "priority must be low, medium, or high".toList, s)
  else
    let fp := generateFingerprint hash inp.appId inp.description inp.screenName
    let existingCanonicalId := findDuplicate s.reports fp inp.appId now f.lookupFails
    if f.insertFails then (.serverError "insert failed".toList, s)
    else
      let newReport := mkNewReport now inp s fp existingCanonicalId
      let inserted := s.reports ++ [newReport]
      let finalReports :=
        match existingCanonicalId with
        | some cid => (rpcIncrement inserted cid f.incrementFails).2
        | none => inserted
      (.created newReport.id newReport.status existingCanonicalId.isSome
         existingCanonicalId inp.screenshotUrls.length,
       { reports := finalReports, nextId := s.nextId + 1 })

inductive UpdateResp where
  | badRequest (msg : Str)
  | notFound
  | ok (report : BugReport)
  | serverError (msg : Str)
  deriving DecidableEq, Repr

/-- The update request body: status and fixStatus are read with a JS truthiness
check, suggestedFix and claudeAnalysis with a strict undefined check, so the
outer Option is presence in the body and the inner Option admits null. The
analysis payload is opaque and modelled as a string. -/
structure UpdateInput where
  status : Option Str
  fixStatus : Option Str
  suggestedFix : Option (Option Str)
  claudeAnalysis : Option (Option Str)
  deriving DecidableEq, Repr

/-- JS truthiness of an optional string: absent, null and the empty string are
falsy. -/
def truthyStr : Option Str → Bool
  | some s => !s.isEmpty
  | none => false

/-- The updates object built by updateBugReport, applied to one row. -/
def applyUpdates (u : UpdateInput) (r : BugReport) : BugReport :=
  let r1 := match u.status with
    | some s => if s.isEmpty then r else { r with status := s }
    | none => r
  let r2 := match u.fixStatus with
    | some s => if s.isEmpty then r1 else { r1 with fix_status := some s }
    | none => r1
  let r3 := match u.suggestedFix with
    | some v => { r2 with suggested_fix := v }
    | none => r2
  match u.claudeAnalysis with
  | some v => { r3 with claude_analysis := v }
  | none => r3

/-- Object.keys(updates).length === 0 for the updates object built above. -/
def updatesEmpty (u : UpdateInput) : Bool :=
  !truthyStr u.status && !truthyStr u.fixStatus &&
  u.suggestedFix.isNone && u.claudeAnalysis.isNone

/-- BugReportController.updateBugReport: reject an empty updates object before
any store write, apply the updates to the addressed row, report PGRST116 as
not-found. -/
def updateBugReport (i : Nat) (u : UpdateInput) (s : Store) :
    UpdateResp × Store :=
  if updatesEmpty u then (.badRequest "No valid fields to update".toList, s)
  else
    match s.reports.find? (fun r => decide (r.id = i)) with
    | none => (.notFound, s)
    | some r =>
      (.ok (applyUpdates u r),
       { s with reports := s.reports.map (fun q => if q.id = i then applyUpdates u q else q) })

/-- One submission: its request body and its arrival time. -/
structure Submission where
  input : SubmitInput
  time : Nat
  deriving Repr

/-- A sequential run of submissions (no concurrent interleaving). -/
def runSubs (hash : Str → Str) (subs : List Submission) (s : Store) : Store :=
  subs.foldl (fun st sb => (submitBugReport hash sb.time noFailures sb.input st).2) s

/-- The states reachable from the empty store by submit and update operations,
with arbitrary infrastructure-failure behaviour. -/
inductive Reach (hash : Str → Str) : Store → Prop where
  | init : Reach hash { reports := [], nextId := 0 }
  | submit (now : Nat) (f : Failures) (inp : SubmitInput) (s : Store) :
      Reach hash s → Reach hash (submitBugReport hash now f inp s).2
  | update (i : Nat) (u : UpdateInput) (s : Store) :
      Reach hash s → Reach hash (updateBugReport i u s).2

/-- Every duplicate points directly at an existing canonical record of the
same tenant: no chains and no self-references. -/
def NoChain (s : Store) : Prop :=
  ∀ r ∈ s.reports, ∀ j, r.canonical_id = some j →
    j ≠ r.id ∧ ∃ q ∈ s.reports, q.id = j ∧ q.app_id = r.app_id ∧ q.canonical_id = none

/-- Id freshness: every stored id and every canonical reference is below the
next fresh id. -/
def IdBound (s : Store) : Prop :=
  ∀ r ∈ s.reports, r.id < s.nextId ∧ ∀ j, r.canonical_id = some j → j < s.nextId

/-- A submission that passes validation, belongs to a given tenant, yields a
given fingerprint, and arrives with the cluster's first submission still
inside the 7-day window. -/
def ValidSubFor (hash : Str → Str) (tenant fp : Str) (t1 : Nat)
    (sb : Submission) : Prop :=
  sb.input.appId = tenant ∧ sb.input.appId ≠ [] ∧
  5 ≤ (jsTrim sb.input.description).length ∧
  sb.input.priority ∈ priorities ∧
  generateFingerprint hash sb.input.appId sb.input.description
    sb.input.screenName = fp ∧
  sb.time - sevenDays ≤ t1

instance (hash : Str → Str) (tenant fp : Str) (t1 : Nat) (sb : Submission) :
    Decidable (ValidSubFor hash tenant fp t1 sb) := by
  unfold ValidSubFor
  exact inferInstance

/-- Pre-existing rows that can never interfere with a fresh fingerprint
cluster rooted at id cid: different tenant-fingerprint pair, smaller id, and
no canonical reference to cid. -/
def InitOk (tenant fp : Str) (cid : Nat) (init : List BugReport) : Prop :=
  ∀ r ∈ init, ¬(r.app_id = tenant ∧ r.fingerprint = fp) ∧ r.id < cid ∧
    ∀ j, r.canonical_id = some j → j ≠ cid

/-- The shape of the store after the cluster's canonical record c (id cid,
created at t1) has accumulated k duplicates: the canonical record counts
itself plus the k duplicates, and every duplicate points at it. -/
def ClusterInv (tenant fp : Str) (cid t1 k : Nat) (init : List BugReport)
    (s : Store) : Prop :=
  ∃ c dups,
    s.reports = init ++ c :: dups ∧
    c.id = cid ∧ c.app_id = tenant ∧ c.fingerprint = fp ∧
    c.canonical_id = none ∧ c.created_at = t1 ∧ c.duplicate_count = k + 1 ∧
    dups.length = k ∧
    (∀ d ∈ dups, d.canonical_id = some cid ∧ cid < d.id) ∧
    cid < s.nextId

/-- A string whose last character, if any, is not whitespace. Exactly the
normalized descriptions on which a second normalization is a no-op. -/
def noTrailingWs (l : Str) : Prop :=
  match l.getLast? with
  | some a => ¬ jsWhitespace a
  | none => True

instance (l : Str) : Decidable (noTrailingWs l) := by
  unfold noTrailingWs
  cases l.getLast? <;> exact inferInstance

/-- A 201-character description whose stripped, trimmed text is cut by the
200-character truncation right after a space. -/
def cexInput : Str := List.replicate 199 'a' ++ [' ', 'b']

/-- A hash stand-in used for concrete evaluations (the controller treats the
digest as an opaque string). -/
def hash0 : Str → Str := fun s => s

def wTenant : Str := "app1".toList

/-- The first submission of the worked example in the spec. -/
def wInput : SubmitInput :=
  { appId := wTenant, description := "Crash on launch!!".toList,
    priority := "high".toList, screenName := none, userId := none,
    screenshotUrls := [], appVersion := none, buildNumber := none,
    iosVersion := none, deviceModel := none }

/-- The second submission: differently punctuated description with the same
normalized text. -/
def wInput2 : SubmitInput :=
  { wInput with description := "crash on launch".toList, priority := "low".toList }

def wFp : Str := generateFingerprint hash0 wTenant wInput.description none

/-- A canonical record as created by submitting wInput into an empty store. -/
def wCanon : BugReport :=
  { id := 1, app_id := wTenant, user_id := none,
    description := jsTrim wInput.description, priority := "high".toList,
    status := "open".toList, screenshot_url := none, screenshot_urls := none,
    app_version := none, build_number := none, ios_version := none,
    device_model := none, screen_name := none, fingerprint := wFp,
    canonical_id := none, duplicate_count := 1, fix_status := none,
    suggested_fix := none, claude_analysis := none, created_at := 100 }

def wStore : Store := { reports := [wCanon], nextId := 2 }

def wU9 : UpdateInput :=
  { status := none, fixStatus := none,
    suggestedFix := some (some "fix".toList), claudeAnalysis := none }

def wU10 : UpdateInput :=
  { status := some [], fixStatus := some [], suggestedFix := none,
    claudeAnalysis := none }

/-! ### String-processing lemmas -/

theorem head?_dropWhile_false {p : Char → Bool} {l : Str} {a : Char}
    (h : (List.dropWhile p l).head? = some a) : p a = false := by
  induction l with
  | nil => simp [List.dropWhile] at h
  | cons b t ih =>
    rw [List.dropWhile_cons] at h
    by_cases hb : p b
    · rw [if_pos hb] at h
      exact ih h
    · rw [if_neg hb] at h
      simp only [List.head?_cons, Option.some.injEq] at h
      subst h
      exact Bool.not_eq_true _ ▸ eq_false_of_ne_true hb

theorem jsTrimRight_append (l : Str) : ∃ post, jsTrimRight l ++ post = l := by
  obtain ⟨t, ht⟩ := List.dropWhile_suffix (l := l.reverse) (fun c => decide (jsWhitespace c))
  refine ⟨t.reverse, ?_⟩
  have := congrArg List.reverse ht
  rwa [List.reverse_append, List.reverse_reverse] at this

theorem mem_jsTrimRight {a : Char} {l : Str} (h : a ∈ jsTrimRight l) : a ∈ l := by
  unfold jsTrimRight at h
  rw [List.mem_reverse] at h
  have := (List.dropWhile_suffix _).subset h
  rwa [List.mem_reverse] at this

theorem mem_jsTrim {a : Char} {l : Str} (h : a ∈ jsTrim l) : a ∈ l := by
  unfold jsTrim at h
  exact (List.dropWhile_suffix _).subset (mem_jsTrimRight h)

theorem jsTrim_head_not_ws {l : Str} {a : Char}
    (h : (jsTrim l).head? = some a) : ¬ jsWhitespace a := by
  unfold jsTrim at h
  obtain ⟨post, hpost⟩ := jsTrimRight_append (jsTrimLeft l)
  cases hjt : jsTrimRight (jsTrimLeft l) with
  | nil => rw [hjt] at h; simp at h
  | cons b rest =>
    rw [hjt] at h
    simp only [List.head?_cons, Option.some.injEq] at h
    rw [hjt] at hpost
    have hhead : (jsTrimLeft l).head? = some b := by
      rw [← hpost]; rfl
    have hb := head?_dropWhile_false (p := fun c => decide (jsWhitespace c)) hhead
    rw [← h]
    simpa using hb

theorem jsTrim_eq_self {l : Str}
    (h1 : ∀ a, l.head? = some a → ¬ jsWhitespace a)
    (h2 : ∀ a, l.getLast? = some a → ¬ jsWhitespace a) : jsTrim l = l := by
  have hleft : jsTrimLeft l = l := by
    unfold jsTrimLeft
    cases l with
    | nil => rfl
    | cons a t =>
      rw [List.dropWhile_cons, if_neg]
      simpa using h1 a rfl
  rw [jsTrim, hleft]
  unfold jsTrimRight
  have hrev : l.reverse.dropWhile (fun c => decide (jsWhitespace c)) = l.reverse := by
    cases hr : l.reverse with
    | nil => rfl
    | cons a t =>
      rw [List.dropWhile_cons, if_neg]
      have hlast : l.getLast? = some a := by
        rw [← List.head?_reverse, hr]; rfl
      simpa using h2 a hlast
  rw [hrev, List.reverse_reverse]

theorem mem_jsNormalize_kept {a : Char} {s : Str} (h : a ∈ jsNormalize s) :
    keptChar a := by
  unfold jsNormalize at h
  have h1 := List.mem_of_mem_take h
  have h2 := mem_jsTrim h1
  have h3 := List.mem_filter.mp h2
  exact of_decide_eq_true h3.2

theorem kept_toLower {c : Char} (h : keptChar c) : jsToLower c = c := by
  unfold jsToLower
  rw [if_neg]
  unfold keptChar jsWhitespace at h
  omega

theorem jsNormalize_length_le (s : Str) : (jsNormalize s).length ≤ 200 := by
  unfold jsNormalize
  exact List.length_take_le _ _

theorem jsNormalize_head_not_ws {s : Str} {a : Char}
    (h : (jsNormalize s).head? = some a) : ¬ jsWhitespace a := by
  unfold jsNormalize at h
  cases htrim : jsTrim ((s.map jsToLower).filter (fun c => decide (keptChar c))) with
  | nil => rw [htrim] at h; simp at h
  | cons b rest =>
    rw [htrim] at h
    have hb : (b :: rest).take 200 = b :: rest.take 199 := rfl
    rw [hb] at h
    simp only [List.head?_cons, Option.some.injEq] at h
    rw [← h]
    have hh : (jsTrim ((s.map jsToLower).filter (fun c => decide (keptChar c)))).head? = some b := by
      rw [htrim]; rfl
    exact jsTrim_head_not_ws hh

/-- C6 (amended): normalization is idempotent on every input whose normalized
form does not end in whitespace; the 200-character truncation can cut the
trimmed text right after a whitespace character, and only then does a second
normalization differ (it drops that trailing whitespace). -/
theorem normalize_idem (s : Str) (h : noTrailingWs (jsNormalize s)) :
    jsNormalize (jsNormalize s) = jsNormalize s := by
  have hkept : ∀ a ∈ jsNormalize s, keptChar a := fun a ha => mem_jsNormalize_kept ha
  have hmap : (jsNormalize s).map jsToLower = jsNormalize s := by
    have he : (jsNormalize s).map jsToLower = (jsNormalize s).map id :=
      List.map_congr_left (fun a ha => kept_toLower (hkept a ha))
    rw [he, List.map_id]
  have hfilter : (jsNormalize s).filter (fun c => decide (keptChar c)) = jsNormalize s :=
    List.filter_eq_self.mpr (fun a ha => decide_eq_true (hkept a ha))
  have hlast : ∀ a, (jsNormalize s).getLast? = some a → ¬ jsWhitespace a := by
    intro a ha
    unfold noTrailingWs at h
    rw [ha] at h
    exact h
  have hhead : ∀ a, (jsNormalize s).head? = some a → ¬ jsWhitespace a :=
    fun _ ha => jsNormalize_head_not_ws ha
  show (jsTrim (((jsNormalize s).map jsToLower).filter (fun c => decide (keptChar c)))).take 200 =
    jsNormalize s
  rw [hmap, hfilter, jsTrim_eq_self hhead hlast,
    List.take_of_length_le (jsNormalize_length_le s)]

set_option maxRecDepth 8192 in
/-- C6 counterexample: for the 201-character input of 199 letters, a space and
a letter, normalization truncates to 199 letters followed by a space, and a
second normalization trims that space — normalize is not idempotent. -/
theorem normalize_not_idempotent :
    jsNormalize (jsNormalize cexInput) ≠ jsNormalize cexInput := by decide

/-- C6 witness: a concrete description on which the amended idempotence
theorem applies. -/
theorem normalize_idem_witness :
    noTrailingWs (jsNormalize "Crash on launch!!".toList) ∧
    jsNormalize (jsNormalize "Crash on launch!!".toList) =
      jsNormalize "Crash on launch!!".toList :=
  ⟨by decide, normalize_idem _ (by decide)⟩

/-- C7: the fingerprint is a pure function, so two calls with identical
arguments agree; and for two distinct tenants with the same description and
screen context, the composed hash inputs differ, so (under collision-freedom
of the truncated digest on these inputs) the fingerprints differ. -/
theorem fingerprint_det_tenant_sep (hash : Str → Str) (t1 t2 d : Str)
    (c : Option Str)
    (hcoll : (hash (fpInput t1 d c)).take 64 = (hash (fpInput t2 d c)).take 64 →
      fpInput t1 d c = fpInput t2 d c) :
    generateFingerprint hash t1 d c = generateFingerprint hash t1 d c ∧
    (t1 ≠ t2 → generateFingerprint hash t1 d c ≠ generateFingerprint hash t2 d c) := by
  refine ⟨rfl, ?_⟩
  intro hne heq
  apply hne
  have hin := hcoll heq
  unfold fpInput at hin
  exact List.append_cancel_right hin

/-- C7 witness: two concrete tenants with the same description and context
produce different fingerprints. -/
theorem fingerprint_det_tenant_sep_witness :
    generateFingerprint hash0 "app1".toList "hello bug".toList none ≠
    generateFingerprint hash0 "app2".toList "hello bug".toList none :=
  (fingerprint_det_tenant_sep hash0 "app1".toList "app2".toList
    "hello bug".toList none (by decide)).2 (by decide)

/-! ### The duplicate resolver -/

theorem earliestCreated_eq_none {l : List BugReport} :
    earliestCreated l = none ↔ l = [] := by
  cases l with
  | nil => simp [earliestCreated]
  | cons r rs =>
    constructor
    · intro h
      exfalso
      unfold earliestCreated at h
      cases he : earliestCreated rs <;> rw [he] at h <;> simp at h
    · intro h
      simp at h

theorem earliestCreated_mem {l : List BugReport} :
    ∀ {r : BugReport}, earliestCreated l = some r → r ∈ l := by
  induction l with
  | nil => intro r h; simp [earliestCreated] at h
  | cons a t ih =>
    intro r h
    unfold earliestCreated at h
    cases he : earliestCreated t with
    | none =>
      rw [he] at h
      simp only [Option.some.injEq] at h
      exact h ▸ List.mem_cons_self a t
    | some b =>
      rw [he] at h
      simp only [Option.some.injEq] at h
      by_cases hc : a.created_at ≤ b.created_at
      · rw [if_pos hc] at h
        exact h ▸ List.mem_cons_self a t
      · rw [if_neg hc] at h
        exact h ▸ List.mem_cons_of_mem a (ih he)

theorem earliestCreated_min {l : List BugReport} {r : BugReport}
    (h : earliestCreated l = some r) :
    ∀ q ∈ l, r.created_at ≤ q.created_at := by
  induction l generalizing r with
  | nil => intro q hq; simp at hq
  | cons a t ih =>
    intro q hq
    unfold earliestCreated at h
    cases he : earliestCreated t with
    | none =>
      rw [he] at h
      simp only [Option.some.injEq] at h
      have ht : t = [] := earliestCreated_eq_none.mp he
      subst ht
      simp only [List.mem_singleton] at hq
      rw [← h, hq]
    | some b =>
      rw [he] at h
      simp only [Option.some.injEq] at h
      rcases List.mem_cons.mp hq with hqa | hqt
      · rw [hqa]
        by_cases hc : a.created_at ≤ b.created_at
        · rw [if_pos hc] at h
          rw [← h]
        · rw [if_neg hc] at h
          rw [← h]
          omega
      · by_cases hc : a.created_at ≤ b.created_at
        · rw [if_pos hc] at h
          rw [← h]
          exact le_trans hc (ih he q hqt)
        · rw [if_neg hc] at h
          rw [← h]
          exact ih he q hqt

/-- C5: the resolver's eligible set is exactly the same-tenant canonical
records with equal fingerprint and created_at >= now - 7 days (boundary
inclusive); it returns no-match exactly when that set is empty, and otherwise
the id of a record of the set with minimal creation time (with strictly
ordered creation times, the earliest-created one). -/
theorem findDuplicate_spec (reports : List BugReport) (fp appId : Str)
    (now : Nat) :
    (∀ r, r ∈ dedupMatches reports fp appId now ↔
      (r ∈ reports ∧ r.fingerprint = fp ∧ r.app_id = appId ∧
       now - sevenDays ≤ r.created_at ∧ r.canonical_id = none)) ∧
    (findDuplicate reports fp appId now false = none ↔
      dedupMatches reports fp appId now = []) ∧
    (∀ i, findDuplicate reports fp appId now false = some i →
      ∃ r ∈ dedupMatches reports fp appId now, r.id = i ∧
        ∀ q ∈ dedupMatches reports fp appId now, r.created_at ≤ q.created_at) := by
  refine ⟨?_, ?_, ?_⟩
  · intro r
    unfold dedupMatches
    rw [List.mem_filter]
    simp [and_assoc]
  · unfold findDuplicate dedupQuery
    rw [if_neg (by simp)]
    rw [← earliestCreated_eq_none]
    cases he : earliestCreated (dedupMatches reports fp appId now) <;> simp [he]
  · intro i hi
    unfold findDuplicate dedupQuery at hi
    rw [if_neg (by simp)] at hi
    cases he : earliestCreated (dedupMatches reports fp appId now) with
    | none => rw [he] at hi; simp at hi
    | some r =>
      rw [he] at hi
      simp only [Option.some.injEq] at hi
      exact ⟨r, earliestCreated_mem he, hi, earliestCreated_min he⟩

/-- C5 witness: a concrete store in which the resolver finds the canonical
record and it is minimal in the eligible set. -/
theorem findDuplicate_spec_witness :
    ∃ r ∈ dedupMatches [wCanon] wFp wTenant 150, r.id = 1 ∧
      ∀ q ∈ dedupMatches [wCanon] wFp wTenant 150, r.created_at ≤ q.created_at :=
  (findDuplicate_spec [wCanon] wFp wTenant 150).2.2 1 (by decide)

/-! ### The update operation -/

theorem applyUpdates_id (u : UpdateInput) (r : BugReport) :
    (applyUpdates u r).id = r.id ∧
    (applyUpdates u r).app_id = r.app_id ∧
    (applyUpdates u r).user_id = r.user_id ∧
    (applyUpdates u r).description = r.description ∧
    (applyUpdates u r).priority = r.priority ∧
    (applyUpdates u r).screenshot_url = r.screenshot_url ∧
    (applyUpdates u r).screenshot_urls = r.screenshot_urls ∧
    (applyUpdates u r).app_version = r.app_version ∧
    (applyUpdates u r).build_number = r.build_number ∧
    (applyUpdates u r).ios_version = r.ios_version ∧
    (applyUpdates u r).device_model = r.device_model ∧
    (applyUpdates u r).screen_name = r.screen_name ∧
    (applyUpdates u r).fingerprint = r.fingerprint ∧
    (applyUpdates u r).canonical_id = r.canonical_id ∧
    (applyUpdates u r).duplicate_count = r.duplicate_count ∧
    (applyUpdates u r).created_at = r.created_at := by
  rcases u with ⟨st, fs, sf, ca⟩
  cases st <;> cases fs <;> cases sf <;> cases ca <;>
    first
      | (simp only [applyUpdates]; split_ifs <;> simp)
      | simp [applyUpdates]

theorem applyUpdates_status_none {u : UpdateInput} (r : BugReport)
    (h : truthyStr u.status = false) : (applyUpdates u r).status = r.status := by
  rcases u with ⟨st, fs, sf, ca⟩
  cases st with
  | none =>
    cases fs <;> cases sf <;> cases ca <;>
      simp only [applyUpdates] <;> split_ifs <;> simp
  | some s =>
    simp only [truthyStr, Bool.not_eq_false'] at h
    have hs : s.isEmpty = true := h
    cases fs <;> cases sf <;> cases ca <;>
      simp only [applyUpdates, hs, if_true] <;> split_ifs <;> simp

theorem applyUpdates_fix_status_none {u : UpdateInput} (r : BugReport)
    (h : truthyStr u.fixStatus = false) :
    (applyUpdates u r).fix_status = r.fix_status := by
  rcases u with ⟨st, fs, sf, ca⟩
  cases fs with
  | none =>
    cases st <;> cases sf <;> cases ca <;>
      simp only [applyUpdates] <;> split_ifs <;> simp
  | some s =>
    simp only [truthyStr, Bool.not_eq_false'] at h
    have hs : s.isEmpty = true := h
    cases st <;> cases sf <;> cases ca <;>
      simp only [applyUpdates, hs, if_true] <;> split_ifs <;> simp

theorem applyUpdates_suggested_none {u : UpdateInput} (r : BugReport)
    (h : u.suggestedFix = none) :
    (applyUpdates u r).suggested_fix = r.suggested_fix := by
  rcases u with ⟨st, fs, sf, ca⟩
  cases sf with
  | none =>
    cases st <;> cases fs <;> cases ca <;>
      simp only [applyUpdates] <;> split_ifs <;> simp
  | some v => simp at h

theorem applyUpdates_analysis_none {u : UpdateInput} (r : BugReport)
    (h : u.claudeAnalysis = none) :
    (applyUpdates u r).claude_analysis = r.claude_analysis := by
  rcases u with ⟨st, fs, sf, ca⟩
  cases ca with
  | none =>
    cases st <;> cases fs <;> cases sf <;>
      simp only [applyUpdates] <;> split_ifs <;> simp
  | some v => simp at h

set_option linter.unreachableTactic false in
set_option linter.unusedTactic false in
theorem applyUpdates_suggested_some {u : UpdateInput} (r : BugReport) (v : Option Str)
    (h : u.suggestedFix = some v) : (applyUpdates u r).suggested_fix = v := by
  rcases u with ⟨st, fs, sf, ca⟩
  simp only at h
  subst h
  cases st <;> cases fs <;> cases ca <;>
    first
      | (simp only [applyUpdates]; split_ifs <;> simp)
      | simp [applyUpdates]

set_option linter.unreachableTactic false in
set_option linter.unusedTactic false in
theorem applyUpdates_analysis_some {u : UpdateInput} (r : BugReport) (v : Option Str)
    (h : u.claudeAnalysis = some v) : (applyUpdates u r).claude_analysis = v := by
  rcases u with ⟨st, fs, sf, ca⟩
  simp only at h
  subst h
  cases st <;> cases fs <;> cases sf <;>
    first
      | (simp only [applyUpdates]; split_ifs <;> simp)
      | simp [applyUpdates]

/-- C9: update writes only the supplied fields among status, fix_status,
suggested_fix and claude_analysis and leaves every other field — fingerprint,
canonical_id and duplicate_count in particular — unchanged; an update
supplying none of those fields is rejected as a caller error with no store
write; an update addressing a nonexistent id fails with not-found; records
with a different id are untouched. -/
theorem update_frame (i : Nat) (u : UpdateInput) (s : Store) :
    ((u.status = none ∧ u.fixStatus = none ∧ u.suggestedFix = none ∧
      u.claudeAnalysis = none) →
      updateBugReport i u s = (.badRequest "No valid fields to update".toList, s)) ∧
    (updatesEmpty u = false → (∀ r ∈ s.reports, r.id ≠ i) →
      updateBugReport i u s = (.notFound, s)) ∧
    (∀ r, (applyUpdates u r).fingerprint = r.fingerprint ∧
      (applyUpdates u r).canonical_id = r.canonical_id ∧
      (applyUpdates u r).duplicate_count = r.duplicate_count ∧
      (applyUpdates u r).id = r.id ∧
      (applyUpdates u r).app_id = r.app_id ∧
      (applyUpdates u r).user_id = r.user_id ∧
      (applyUpdates u r).description = r.description ∧
      (applyUpdates u r).priority = r.priority ∧
      (applyUpdates u r).screenshot_url = r.screenshot_url ∧
      (applyUpdates u r).screenshot_urls = r.screenshot_urls ∧
      (applyUpdates u r).app_version = r.app_version ∧
      (applyUpdates u r).build_number = r.build_number ∧
      (applyUpdates u r).ios_version = r.ios_version ∧
      (applyUpdates u r).device_model = r.device_model ∧
      (applyUpdates u r).screen_name = r.screen_name ∧
      (applyUpdates u r).created_at = r.created_at) ∧
    (∀ r, u.status = none → (applyUpdates u r).status = r.status) ∧
    (∀ r, u.fixStatus = none → (applyUpdates u r).fix_status = r.fix_status) ∧
    (∀ r, u.suggestedFix = none → (applyUpdates u r).suggested_fix = r.suggested_fix) ∧
    (∀ r, u.claudeAnalysis = none → (applyUpdates u r).claude_analysis = r.claude_analysis) ∧
    (∀ q ∈ s.reports, q.id ≠ i → q ∈ (updateBugReport i u s).2.reports) := by
  refine ⟨?_, ?_, ?_, ?_, ?_, ?_, ?_, ?_⟩
  · rintro ⟨h1, h2, h3, h4⟩
    unfold updateBugReport
    rw [if_pos]
    unfold updatesEmpty truthyStr
    rw [h1, h2, h3, h4]
    rfl
  · intro hne hmem
    unfold updateBugReport
    rw [if_neg (by simp [hne])]
    rw [List.find?_eq_none.mpr (fun x hx => by simpa using hmem x hx)]
  · intro r
    have h := applyUpdates_id u r
    tauto
  · intro r h
    exact applyUpdates_status_none r (by simp [truthyStr, h])
  · intro r h
    exact applyUpdates_fix_status_none r (by simp [truthyStr, h])
  · intro r h
    exact applyUpdates_suggested_none r h
  · intro r h
    exact applyUpdates_analysis_none r h
  · intro q hq hqi
    unfold updateBugReport
    by_cases he : updatesEmpty u = true
    · rw [if_pos he]
      exact hq
    · rw [if_neg he]
      cases hf : s.reports.find? (fun r => decide (r.id = i)) with
      | none => exact hq
      | some r =>
        simp only
        exact List.mem_map.mpr ⟨q, hq, by rw [if_neg hqi]⟩

/-- C9 witness: an update addressing a nonexistent id fails with not-found
and leaves the store unchanged. -/
theorem update_frame_witness :
    updateBugReport 5 wU9 wStore = (.notFound, wStore) :=
  (update_frame 5 wU9 wStore).2.1 (by decide) (by decide)

/-- C10: a supplied-but-falsy status or fixStatus (the empty string) is
treated exactly as if the field were absent; an update whose only supplied
fields are such falsy values is rejected as the zero-field caller error; and
suggestedFix and claudeAnalysis are applied whenever present, including when
null or empty. -/
theorem update_falsy_semantics (i : Nat) (u : UpdateInput) (r : BugReport)
    (s : Store) :
    (u.status = some [] → (applyUpdates u r).status = r.status) ∧
    (u.fixStatus = some [] → (applyUpdates u r).fix_status = r.fix_status) ∧
    (u.status = some [] →
      updateBugReport i u s = updateBugReport i { u with status := none } s) ∧
    (u.fixStatus = some [] →
      updateBugReport i u s = updateBugReport i { u with fixStatus := none } s) ∧
    ((truthyStr u.status = false ∧ truthyStr u.fixStatus = false ∧
      u.suggestedFix = none ∧ u.claudeAnalysis = none) →
      updateBugReport i u s = (.badRequest "No valid fields to update".toList, s)) ∧
    (∀ v, u.suggestedFix = some v → (applyUpdates u r).suggested_fix = v) ∧
    (∀ v, u.claudeAnalysis = some v → (applyUpdates u r).claude_analysis = v) := by
  refine ⟨?_, ?_, ?_, ?_, ?_, ?_, ?_⟩
  · intro h
    exact applyUpdates_status_none r (by rw [h]; rfl)
  · intro h
    exact applyUpdates_fix_status_none r (by rw [h]; rfl)
  · intro h
    rcases u with ⟨st, fs, sf, ca⟩
    simp only at h
    subst h
    rfl
  · intro h
    rcases u with ⟨st, fs, sf, ca⟩
    simp only at h
    subst h
    rfl
  · rintro ⟨h1, h2, h3, h4⟩
    unfold updateBugReport
    rw [if_pos]
    unfold updatesEmpty
    rw [h1, h2, h3, h4]
    rfl
  · intro v h
    exact applyUpdates_suggested_some r v h
  · intro v h
    exact applyUpdates_analysis_some r v h

/-- C10 witness: an update supplying only empty-string status and fixStatus
is rejected as the zero-field caller error with no store write. -/
theorem update_falsy_semantics_witness :
    updateBugReport 1 wU10 wStore =
      (.badRequest "No valid fields to update".toList, wStore) :=
  (update_falsy_semantics 1 wU10 wCanon wStore).2.2.2.2.1 (by decide)

/-! ### The submit operation -/

theorem desc_valid_of_len {d : Str} (h : 5 ≤ (jsTrim d).length) :
    ¬(d = [] ∨ (jsTrim d).length < 5) := by
  rintro (hd | hd)
  · rw [hd] at h
    exact absurd h (by decide)
  · omega

theorem submit_valid_some (hash : Str → Str) (now : Nat) (inp : SubmitInput)
    (s : Store) (cid : Nat)
    (h1 : inp.appId ≠ [])
    (h2 : ¬(inp.description = [] ∨ (jsTrim inp.description).length < 5))
    (h3 : inp.priority ∈ priorities)
    (hex : findDuplicate s.reports
      (generateFingerprint hash inp.appId inp.description inp.screenName)
      inp.appId now false = some cid) :
    submitBugReport hash now noFailures inp s =
      (.created s.nextId "duplicate".toList true (some cid) inp.screenshotUrls.length,
       { reports := incrementDupCount
           (s.reports ++ [mkNewReport now inp s
             (generateFingerprint hash inp.appId inp.description inp.screenName)
             (some cid)]) cid,
         nextId := s.nextId + 1 }) := by
  unfold submitBugReport
  rw [if_neg h1, if_neg h2, if_neg (not_not_intro h3)]
  simp only [noFailures]
  rw [hex]
  rfl

theorem submit_valid_none (hash : Str → Str) (now : Nat) (inp : SubmitInput)
    (s : Store)
    (h1 : inp.appId ≠ [])
    (h2 : ¬(inp.description = [] ∨ (jsTrim inp.description).length < 5))
    (h3 : inp.priority ∈ priorities)
    (hex : findDuplicate s.reports
      (generateFingerprint hash inp.appId inp.description inp.screenName)
      inp.appId now false = none) :
    submitBugReport hash now noFailures inp s =
      (.created s.nextId "open".toList false none inp.screenshotUrls.length,
       { reports := s.reports ++ [mkNewReport now inp s
           (generateFingerprint hash inp.appId inp.description inp.screenName) none],
         nextId := s.nextId + 1 }) := by
  unfold submitBugReport
  rw [if_neg h1, if_neg h2, if_neg (not_not_intro h3)]
  simp only [noFailures]
  rw [hex]
  rfl

/-- C3: for a valid submission without infrastructure failures, if the
resolver found a canonical match then the created record has
status = duplicate, canonical_id = the match, duplicate_count = 0, and the
atomic increment of the matched record's duplicate_count is issued; if not,
the created record has status = open, canonical_id = null and
duplicate_count = 1. -/
theorem submit_postcondition (hash : Str → Str) (now : Nat) (inp : SubmitInput)
    (s : Store)
    (h1 : inp.appId ≠ [])
    (h2 : 5 ≤ (jsTrim inp.description).length)
    (h3 : inp.priority ∈ priorities) :
    (∀ cid, findDuplicate s.reports
        (generateFingerprint hash inp.appId inp.description inp.screenName)
        inp.appId now false = some cid →
      ∃ r, (submitBugReport hash now noFailures inp s).2.reports =
          incrementDupCount (s.reports ++ [r]) cid ∧
        r.status = "duplicate".toList ∧ r.canonical_id = some cid ∧
        r.duplicate_count = 0) ∧
    (findDuplicate s.reports
        (generateFingerprint hash inp.appId inp.description inp.screenName)
        inp.appId now false = none →
      ∃ r, (submitBugReport hash now noFailures inp s).2.reports =
          s.reports ++ [r] ∧
        r.status = "open".toList ∧ r.canonical_id = none ∧
        r.duplicate_count = 1) := by
  constructor
  · intro cid hcid
    refine ⟨mkNewReport now inp s
      (generateFingerprint hash inp.appId inp.description inp.screenName)
      (some cid), ?_, rfl, rfl, rfl⟩
    rw [submit_valid_some hash now inp s cid h1 (desc_valid_of_len h2) h3 hcid]
  · intro hnone
    refine ⟨mkNewReport now inp s
      (generateFingerprint hash inp.appId inp.description inp.screenName)
      none, ?_, rfl, rfl, rfl⟩
    rw [submit_valid_none hash now inp s h1 (desc_valid_of_len h2) h3 hnone]

/-- C3 witness: submitting into an empty store creates an open canonical
record counting itself. -/
theorem submit_postcondition_witness :
    ∃ r, (submitBugReport hash0 100 noFailures wInput ⟨[], 0⟩).2.reports =
        (⟨[], 0⟩ : Store).reports ++ [r] ∧
      r.status = "open".toList ∧ r.canonical_id = none ∧ r.duplicate_count = 1 :=
  (submit_postcondition hash0 100 wInput ⟨[], 0⟩ (by decide) (by decide)
    (by decide)).2 (by decide)

/-- C2 (code bug): when the rpc increment fails, submit still reports
success — the created response names the canonical match — while the
canonical record's duplicate_count stays 1 and the rpc error that was
returned to the controller was discarded unread. -/
theorem increment_failure_swallowed :
    (submitBugReport hash0 150 ⟨false, false, true⟩ wInput2 ⟨[wCanon], 2⟩).1 =
      .created 2 "duplicate".toList true (some 1) 0 ∧
    (submitBugReport hash0 150 ⟨false, false, true⟩ wInput2
        ⟨[wCanon], 2⟩).2.reports.map (fun r => r.duplicate_count) = [1, 0] ∧
    (rpcIncrement ((⟨[wCanon], 2⟩ : Store).reports ++
        [mkNewReport 150 wInput2 ⟨[wCanon], 2⟩ wFp (some 1)]) 1 true).1.error =
      some "rpc failed".toList := by decide

/-- C8 (code bug): when the resolver's store lookup fails, the query error is
set but findDuplicate returns null, and submit proceeds as if no match
existed — creating a second canonical record and answering 201 — instead of
surfacing an internal failure. -/
theorem lookup_failure_treated_as_no_match :
    (dedupQuery [wCanon] wFp wTenant 150 true).error =
      some "store unreachable".toList ∧
    findDuplicate [wCanon] wFp wTenant 150 true = none ∧
    (submitBugReport hash0 150 ⟨true, false, false⟩ wInput2 ⟨[wCanon], 2⟩).1 =
      .created 2 "open".toList false none 0 := by decide

/-! ### The no-chain invariant -/

theorem incOne_fields (cid : Nat) (r : BugReport) :
    (incOne cid r).id = r.id ∧ (incOne cid r).app_id = r.app_id ∧
    (incOne cid r).canonical_id = r.canonical_id ∧
    (incOne cid r).fingerprint = r.fingerprint ∧
    (incOne cid r).created_at = r.created_at := by
  unfold incOne
  split_ifs <;> simp

theorem incOne_eq_self {cid : Nat} {r : BugReport} (h : r.id ≠ cid) :
    incOne cid r = r := by
  unfold incOne
  rw [if_neg h]

theorem findDuplicate_some_props {reports : List BugReport} {fp appId : Str}
    {now : Nat} {fails : Bool} {cid : Nat}
    (h : findDuplicate reports fp appId now fails = some cid) :
    ∃ r ∈ reports, r.id = cid ∧ r.app_id = appId ∧ r.canonical_id = none := by
  unfold findDuplicate dedupQuery at h
  cases fails with
  | true => simp at h
  | false =>
    rw [if_neg Bool.false_ne_true] at h
    cases he : earliestCreated (dedupMatches reports fp appId now) with
    | none => rw [he] at h; simp at h
    | some r =>
      rw [he] at h
      simp only [Option.some.injEq] at h
      have hm := earliestCreated_mem he
      have := List.mem_filter.mp hm
      have hp := of_decide_eq_true this.2
      exact ⟨r, this.1, h, hp.2.1, hp.2.2.2⟩

theorem map_preserves_inv (g : BugReport → BugReport)
    (hg : ∀ r, (g r).id = r.id ∧ (g r).app_id = r.app_id ∧
      (g r).canonical_id = r.canonical_id)
    (l : List BugReport) (n : Nat)
    (hid : IdBound ⟨l, n⟩) (hnc : NoChain ⟨l, n⟩) :
    IdBound ⟨l.map g, n⟩ ∧ NoChain ⟨l.map g, n⟩ := by
  constructor
  · intro r' hr'
    obtain ⟨r, hr, hgr⟩ := List.mem_map.mp hr'
    obtain ⟨h1, h2, h3⟩ := hg r
    rw [← hgr]
    rw [h1, h3]
    exact hid r hr
  · intro r' hr' j hj
    obtain ⟨r, hr, hgr⟩ := List.mem_map.mp hr'
    obtain ⟨h1, h2, h3⟩ := hg r
    rw [← hgr] at hj ⊢
    rw [h3] at hj
    obtain ⟨hne, q, hq, hqid, hqapp, hqcan⟩ := hnc r hr j hj
    refine ⟨by rw [h1]; exact hne, g q, List.mem_map.mpr ⟨q, hq, rfl⟩, ?_, ?_, ?_⟩
    · rw [(hg q).1]; exact hqid
    · rw [(hg q).2.1, h2]; exact hqapp
    · rw [(hg q).2.2]; exact hqcan

theorem append_dup_inv (s : Store) (newR : BugReport)
    (hid : IdBound s) (hnc : NoChain s)
    (hnid : newR.id = s.nextId)
    (hcan : ∀ cid, newR.canonical_id = some cid →
      ∃ r0 ∈ s.reports, r0.id = cid ∧ r0.app_id = newR.app_id ∧
        r0.canonical_id = none) :
    IdBound ⟨s.reports ++ [newR], s.nextId + 1⟩ ∧
    NoChain ⟨s.reports ++ [newR], s.nextId + 1⟩ := by
  constructor
  · intro r hr
    show r.id < s.nextId + 1 ∧ ∀ j, r.canonical_id = some j → j < s.nextId + 1
    rcases List.mem_append.mp hr with hro | hrn
    · obtain ⟨ha, hb⟩ := hid r hro
      exact ⟨by omega, fun j hj => by have := hb j hj; omega⟩
    · simp only [List.mem_singleton] at hrn
      subst hrn
      refine ⟨by rw [hnid]; omega, fun j hj => ?_⟩
      obtain ⟨r0, hr0, hr0id, _, _⟩ := hcan j hj
      have := (hid r0 hr0).1
      omega
  · intro r hr j hj
    rcases List.mem_append.mp hr with hro | hrn
    · obtain ⟨hne, q, hq, hqid, hqapp, hqcan⟩ := hnc r hro j hj
      exact ⟨hne, q, List.mem_append_left _ hq, hqid, hqapp, hqcan⟩
    · simp only [List.mem_singleton] at hrn
      subst hrn
      obtain ⟨r0, hr0, hr0id, hr0app, hr0can⟩ := hcan j hj
      have hlt := (hid r0 hr0).1
      refine ⟨?_, r0, List.mem_append_left _ hr0, hr0id, hr0app.symm ▸ rfl, hr0can⟩
      rw [hnid]
      omega

theorem submit_preserves_inv (hash : Str → Str) (now : Nat) (f : Failures)
    (inp : SubmitInput) (s : Store) (hid : IdBound s) (hnc : NoChain s) :
    IdBound (submitBugReport hash now f inp s).2 ∧
    NoChain (submitBugReport hash now f inp s).2 := by
  unfold submitBugReport
  by_cases hA : inp.appId = []
  · rw [if_pos hA]
    exact ⟨hid, hnc⟩
  rw [if_neg hA]
  by_cases hB : inp.description = [] ∨ (jsTrim inp.description).length < 5
  · rw [if_pos hB]
    exact ⟨hid, hnc⟩
  rw [if_neg hB]
  by_cases hC : inp.priority ∉ priorities
  · rw [if_pos hC]
    exact ⟨hid, hnc⟩
  rw [if_neg hC]
  cases hins : f.insertFails with
  | true =>
    simp only [hins]
    exact ⟨hid, hnc⟩
  | false =>
    simp only [hins]
    cases hex : findDuplicate s.reports
      (generateFingerprint hash inp.appId inp.description inp.screenName)
      inp.appId now f.lookupFails with
    | none =>
      exact append_dup_inv s _ hid hnc rfl
        (fun cid hcid => by simp [mkNewReport] at hcid)
    | some cid =>
      obtain ⟨r0, hr0, hr0id, hr0app, hr0can⟩ := findDuplicate_some_props hex
      have hbase := append_dup_inv s
        (mkNewReport now inp s
          (generateFingerprint hash inp.appId inp.description inp.screenName)
          (some cid)) hid hnc rfl
        (fun c hc => by
          simp only [mkNewReport, Option.some.injEq] at hc
          exact hc ▸ ⟨r0, hr0, hr0id, hr0app, hr0can⟩)
      cases hinc : f.incrementFails with
      | true =>
        exact hbase
      | false =>
        exact map_preserves_inv (incOne cid)
          (fun r => ⟨(incOne_fields cid r).1, (incOne_fields cid r).2.1,
            (incOne_fields cid r).2.2.1⟩)
          _ _ hbase.1 hbase.2

theorem update_preserves_inv (i : Nat) (u : UpdateInput) (s : Store)
    (hid : IdBound s) (hnc : NoChain s) :
    IdBound (updateBugReport i u s).2 ∧ NoChain (updateBugReport i u s).2 := by
  unfold updateBugReport
  split_ifs with hA
  · exact ⟨hid, hnc⟩
  · cases hf : s.reports.find? (fun r => decide (r.id = i)) with
    | none => exact ⟨hid, hnc⟩
    | some r =>
      simp only
      exact map_preserves_inv (fun q => if q.id = i then applyUpdates u q else q)
        (fun q => by
          show (if q.id = i then applyUpdates u q else q).id = q.id ∧
            (if q.id = i then applyUpdates u q else q).app_id = q.app_id ∧
            (if q.id = i then applyUpdates u q else q).canonical_id = q.canonical_id
          split_ifs with hq
          · exact ⟨(applyUpdates_id u q).1, (applyUpdates_id u q).2.1,
              (applyUpdates_id u q).2.2.2.2.2.2.2.2.2.2.2.2.2.1⟩
          · exact ⟨rfl, rfl, rfl⟩)
        _ _ hid hnc

theorem reach_inv {hash : Str → Str} {s : Store} (h : Reach hash s) :
    IdBound s ∧ NoChain s := by
  induction h with
  | init =>
    constructor <;> intro r hr <;> simp at hr
  | submit now f inp s hs ih =>
    exact submit_preserves_inv hash now f inp s ih.1 ih.2
  | update i u s hs ih =>
    exact update_preserves_inv i u s ih.1 ih.2

/-- C4: in every state reachable by any sequence of submit and update
operations, every record either has canonical_id null or points at an
existing record of the same tenant whose own canonical_id is null — never a
chain, never a self-reference; and update never modifies any record's
canonical_id. -/
theorem no_chain_reachable (hash : Str → Str) (s : Store) (h : Reach hash s) :
    NoChain s ∧
    ∀ i u, (updateBugReport i u s).2.reports.map (fun r => (r.id, r.canonical_id)) =
      s.reports.map (fun r => (r.id, r.canonical_id)) := by
  refine ⟨(reach_inv h).2, ?_⟩
  intro i u
  unfold updateBugReport
  split_ifs with he
  · rfl
  · cases hf : s.reports.find? (fun r => decide (r.id = i)) with
    | none => rfl
    | some r =>
      simp only [List.map_map]
      apply List.map_congr_left
      intro q hq
      simp only [Function.comp_apply]
      split_ifs with hqi
      · have h1 := (applyUpdates_id u q).1
        have h2 := (applyUpdates_id u q).2.2.2.2.2.2.2.2.2.2.2.2.2.1
        rw [h1, h2]
      · rfl

/-- C4 witness: the invariant at a concrete reachable state holding one
canonical record and one duplicate. -/
theorem no_chain_reachable_witness :
    NoChain (submitBugReport hash0 150 noFailures wInput2
      (submitBugReport hash0 100 noFailures wInput ⟨[], 0⟩).2).2 :=
  (no_chain_reachable hash0 _
    (Reach.submit 150 noFailures wInput2 _
      (Reach.submit 100 noFailures wInput _ Reach.init))).1

/-! ### Count conservation -/

theorem map_incOne_id {cid : Nat} {l : List BugReport}
    (h : ∀ r ∈ l, r.id ≠ cid) : l.map (incOne cid) = l := by
  have he : l.map (incOne cid) = l.map id :=
    List.map_congr_left (fun r hr => incOne_eq_self (h r hr))
  rw [he, List.map_id]

theorem findDuplicate_cluster {tenant fp : Str} {now t1 : Nat}
    {init : List BugReport} {c : BugReport} {dups : List BugReport}
    (hInit : ∀ r ∈ init, ¬(r.app_id = tenant ∧ r.fingerprint = fp))
    (happ : c.app_id = tenant) (hfp : c.fingerprint = fp)
    (hcan : c.canonical_id = none) (hcre : c.created_at = t1)
    (hdups : ∀ d ∈ dups, d.canonical_id ≠ none)
    (hwin : now - sevenDays ≤ t1) :
    findDuplicate (init ++ c :: dups) fp tenant now false = some c.id := by
  unfold findDuplicate dedupQuery
  rw [if_neg Bool.false_ne_true]
  have hm : dedupMatches (init ++ c :: dups) fp tenant now = [c] := by
    unfold dedupMatches
    rw [List.filter_append]
    have hi : init.filter (fun r =>
        decide (r.fingerprint = fp ∧ r.app_id = tenant ∧
          now - sevenDays ≤ r.created_at ∧ r.canonical_id = none)) = [] :=
      List.filter_eq_nil_iff.mpr (fun r hr => by
        simp only [decide_eq_true_eq]
        have := hInit r hr
        tauto)
    have hcpos : (fun r =>
        decide (r.fingerprint = fp ∧ r.app_id = tenant ∧
          now - sevenDays ≤ r.created_at ∧ r.canonical_id = none)) c = true := by
      simp only [decide_eq_true_eq]
      exact ⟨hfp, happ, by rw [hcre]; exact hwin, hcan⟩
    have hdn : dups.filter (fun r =>
        decide (r.fingerprint = fp ∧ r.app_id = tenant ∧
          now - sevenDays ≤ r.created_at ∧ r.canonical_id = none)) = [] :=
      List.filter_eq_nil_iff.mpr (fun d hd => by
        simp only [decide_eq_true_eq]
        have := hdups d hd
        tauto)
    rw [hi, List.filter_cons, if_pos hcpos, hdn]
    rfl
  rw [hm]
  rfl

theorem findDuplicate_empty_cluster {tenant fp : Str} {now : Nat}
    {init : List BugReport}
    (hInit : ∀ r ∈ init, ¬(r.app_id = tenant ∧ r.fingerprint = fp)) :
    findDuplicate init fp tenant now false = none := by
  unfold findDuplicate dedupQuery
  rw [if_neg Bool.false_ne_true]
  have hm : dedupMatches init fp tenant now = [] :=
    List.filter_eq_nil_iff.mpr (fun r hr => by
      simp only [decide_eq_true_eq]
      have := hInit r hr
      tauto)
  rw [hm]
  rfl

theorem cluster_base (hash : Str → Str) (tenant fp : Str) (sb : Submission)
    (s0 : Store)
    (hInit0 : ∀ r ∈ s0.reports, ¬(r.app_id = tenant ∧ r.fingerprint = fp))
    (hval : ValidSubFor hash tenant fp sb.time sb) :
    ClusterInv tenant fp s0.nextId sb.time 0 s0.reports
      (submitBugReport hash sb.time noFailures sb.input s0).2 := by
  obtain ⟨hten, hne, hdesc, hpri, hfpeq, hwin⟩ := hval
  have hfind : findDuplicate s0.reports
      (generateFingerprint hash sb.input.appId sb.input.description
        sb.input.screenName) sb.input.appId sb.time false = none := by
    rw [hfpeq, hten]
    exact findDuplicate_empty_cluster hInit0
  rw [submit_valid_none hash sb.time sb.input s0 hne (desc_valid_of_len hdesc)
    hpri hfind]
  refine ⟨mkNewReport sb.time sb.input s0
    (generateFingerprint hash sb.input.appId sb.input.description
      sb.input.screenName) none, [], rfl, rfl, hten, hfpeq, rfl, rfl, rfl, rfl,
    ?_, ?_⟩
  · intro d hd
    simp at hd
  · show s0.nextId < s0.nextId + 1
    omega

theorem cluster_step (hash : Str → Str) (tenant fp : Str) (cid t1 k : Nat)
    (init : List BugReport) (sb : Submission) (s : Store)
    (hInit : InitOk tenant fp cid init)
    (hval : ValidSubFor hash tenant fp t1 sb)
    (hinv : ClusterInv tenant fp cid t1 k init s) :
    ClusterInv tenant fp cid t1 (k + 1) init
      (submitBugReport hash sb.time noFailures sb.input s).2 := by
  obtain ⟨c, dups, hrep, hcid, happ, hfp, hcan, hcre, hcount, hlen, hd, hnext⟩ :=
    hinv
  obtain ⟨hten, hne, hdesc, hpri, hfpeq, hwin⟩ := hval
  have hfind : findDuplicate s.reports
      (generateFingerprint hash sb.input.appId sb.input.description
        sb.input.screenName) sb.input.appId sb.time false = some cid := by
    rw [hfpeq, hten, hrep, ← hcid]
    exact findDuplicate_cluster (fun r hr => (hInit r hr).1) happ hfp hcan hcre
      (fun d hd' => by rw [(hd d hd').1]; simp) hwin
  rw [submit_valid_some hash sb.time sb.input s cid hne (desc_valid_of_len hdesc)
    hpri hfind]
  have hmapinit : init.map (incOne cid) = init :=
    map_incOne_id (fun r hr => by have := (hInit r hr).2.1; omega)
  have hmapdups : dups.map (incOne cid) = dups :=
    map_incOne_id (fun d hd' => by have := (hd d hd').2; omega)
  have hmapnew : incOne cid (mkNewReport sb.time sb.input s
      (generateFingerprint hash sb.input.appId sb.input.description
        sb.input.screenName) (some cid)) =
      mkNewReport sb.time sb.input s
        (generateFingerprint hash sb.input.appId sb.input.description
          sb.input.screenName) (some cid) :=
    incOne_eq_self (by show s.nextId ≠ cid; omega)
  have hbump : incOne cid c = { c with duplicate_count := c.duplicate_count + 1 } := by
    unfold incOne
    rw [if_pos hcid]
  refine ⟨{ c with duplicate_count := c.duplicate_count + 1 },
    dups ++ [mkNewReport sb.time sb.input s
      (generateFingerprint hash sb.input.appId sb.input.description
        sb.input.screenName) (some cid)], ?_, hcid, happ, hfp, hcan, hcre,
    ?_, ?_, ?_, ?_⟩
  · show incrementDupCount (s.reports ++ [mkNewReport sb.time sb.input s
      (generateFingerprint hash sb.input.appId sb.input.description
        sb.input.screenName) (some cid)]) cid = _
    rw [hrep]
    unfold incrementDupCount
    rw [List.append_assoc, List.cons_append, List.map_append, hmapinit,
      List.map_cons, hbump, List.map_append, hmapdups, List.map_cons,
      List.map_nil, hmapnew]
  · show c.duplicate_count + 1 = k + 1 + 1
    omega
  · simp [hlen]
  · intro d hd'
    rcases List.mem_append.mp hd' with ho | hn
    · exact hd d ho
    · simp only [List.mem_singleton] at hn
      subst hn
      exact ⟨rfl, by show cid < s.nextId; omega⟩
  · show cid < s.nextId + 1
    omega

theorem cluster_fold (hash : Str → Str) (tenant fp : Str) (cid t1 : Nat)
    (init : List BugReport) (hInit : InitOk tenant fp cid init) :
    ∀ (subs : List Submission) (k : Nat) (s : Store),
      (∀ sb ∈ subs, ValidSubFor hash tenant fp t1 sb) →
      ClusterInv tenant fp cid t1 k init s →
      ClusterInv tenant fp cid t1 (k + subs.length) init (runSubs hash subs s) := by
  intro subs
  induction subs with
  | nil =>
    intro k s _ h
    simpa [runSubs] using h
  | cons sb rest ih =>
    intro k s hv h
    have h1 := cluster_step hash tenant fp cid t1 k init sb s hInit
      (hv sb (List.mem_cons_self sb rest)) h
    have h2 := ih (k + 1) _ (fun x hx => hv x (List.mem_cons_of_mem _ hx)) h1
    have hr : runSubs hash (sb :: rest) s =
        runSubs hash rest (submitBugReport hash sb.time noFailures sb.input s).2 := by
      simp [runSubs]
    rw [hr]
    have hkl : k + (sb :: rest).length = k + 1 + rest.length := by
      simp [List.length_cons]
      omega
    rw [hkl]
    exact h2

theorem cluster_counts (tenant fp : Str) (cid t1 k : Nat)
    (init : List BugReport) (s : Store)
    (hInit : InitOk tenant fp cid init)
    (hinv : ClusterInv tenant fp cid t1 k init s) :
    ∃ c, s.reports.filter (fun r =>
        decide (r.app_id = tenant ∧ r.fingerprint = fp ∧ r.canonical_id = none)) = [c] ∧
      c.id = cid ∧ c.duplicate_count = k + 1 ∧
      (s.reports.filter (fun r => decide (r.canonical_id = some cid))).length = k := by
  obtain ⟨c, dups, hrep, hcid, happ, hfp, hcan, hcre, hcount, hlen, hd, hnext⟩ :=
    hinv
  refine ⟨c, ?_, hcid, hcount, ?_⟩
  · rw [hrep, List.filter_append]
    have hi : init.filter (fun r =>
        decide (r.app_id = tenant ∧ r.fingerprint = fp ∧ r.canonical_id = none)) = [] :=
      List.filter_eq_nil_iff.mpr (fun r hr => by
        simp only [decide_eq_true_eq]
        have := (hInit r hr).1
        tauto)
    have hcpos : (fun r =>
        decide (r.app_id = tenant ∧ r.fingerprint = fp ∧ r.canonical_id = none)) c = true := by
      simp only [decide_eq_true_eq]
      exact ⟨happ, hfp, hcan⟩
    have hdn : dups.filter (fun r =>
        decide (r.app_id = tenant ∧ r.fingerprint = fp ∧ r.canonical_id = none)) = [] :=
      List.filter_eq_nil_iff.mpr (fun d hd' => by
        simp only [decide_eq_true_eq]
        have := (hd d hd').1
        simp [this])
    rw [hi, List.filter_cons, if_pos hcpos, hdn]
    rfl
  · rw [hrep, List.filter_append]
    have hi : init.filter (fun r => decide (r.canonical_id = some cid)) = [] :=
      List.filter_eq_nil_iff.mpr (fun r hr => by
        simp only [decide_eq_true_eq]
        exact fun hc => (hInit r hr).2.2 cid hc rfl)
    have hcneg : (fun r => decide (r.canonical_id = some cid)) c = false := by
      simp [hcan]
    have hdall : dups.filter (fun r => decide (r.canonical_id = some cid)) = dups :=
      List.filter_eq_self.mpr (fun d hd' => by
        simp only [decide_eq_true_eq]
        exact (hd d hd').1)
    rw [hi, List.filter_cons, if_neg (by simp [hcneg]), hdall]
    simpa using hlen

/-- C1: starting from a store holding nothing for a given tenant-fingerprint
pair, after N >= 1 sequential valid submissions of that tenant that all yield
that fingerprint and all arrive within 7 days of the first, the store holds
exactly one canonical record for the pair, its duplicate_count is N, and
exactly N-1 records point at it via canonical_id. -/
theorem count_conservation (hash : Str → Str) (tenant fp : Str) (s0 : Store)
    (hInit0 : ∀ r ∈ s0.reports, ¬(r.app_id = tenant ∧ r.fingerprint = fp))
    (hIds : ∀ r ∈ s0.reports, r.id < s0.nextId ∧
      ∀ j, r.canonical_id = some j → j < s0.nextId)
    (sb0 : Submission) (rest : List Submission)
    (hAll : ∀ sb ∈ sb0 :: rest, ValidSubFor hash tenant fp sb0.time sb) :
    ∃ c, (runSubs hash (sb0 :: rest) s0).reports.filter (fun r =>
        decide (r.app_id = tenant ∧ r.fingerprint = fp ∧ r.canonical_id = none)) = [c] ∧
      c.duplicate_count = (sb0 :: rest).length ∧
      ((runSubs hash (sb0 :: rest) s0).reports.filter (fun r =>
        decide (r.canonical_id = some c.id))).length = (sb0 :: rest).length - 1 := by
  have hInit : InitOk tenant fp s0.nextId s0.reports := by
    intro r hr
    refine ⟨hInit0 r hr, (hIds r hr).1, fun j hj => ?_⟩
    have := (hIds r hr).2 j hj
    omega
  have hbase := cluster_base hash tenant fp sb0 s0 hInit0
    (hAll sb0 (List.mem_cons_self sb0 rest))
  have hfold := cluster_fold hash tenant fp s0.nextId sb0.time s0.reports hInit
    rest 0 _ (fun x hx => hAll x (List.mem_cons_of_mem _ hx)) hbase
  have hrun : runSubs hash (sb0 :: rest) s0 =
      runSubs hash rest (submitBugReport hash sb0.time noFailures sb0.input s0).2 := by
    simp [runSubs]
  obtain ⟨c, hc1, hc2, hc3, hc4⟩ := cluster_counts tenant fp s0.nextId sb0.time
    (0 + rest.length) s0.reports _ hInit hfold
  refine ⟨c, ?_, ?_, ?_⟩
  · rw [hrun]
    exact hc1
  · rw [hc3]
    simp
  · rw [hrun, hc2]
    rw [hc4]
    simp

/-- C1 witness: two concrete submissions with the same normalized description
leave one canonical record with duplicate_count 2 and one duplicate pointing
at it. -/
theorem count_conservation_witness :
    ∃ c, (runSubs hash0 [⟨wInput, 100⟩, ⟨wInput2, 150⟩] ⟨[], 0⟩).reports.filter
        (fun r => decide (r.app_id = wTenant ∧ r.fingerprint = wFp ∧
          r.canonical_id = none)) = [c] ∧
      c.duplicate_count = ([⟨wInput, 100⟩, ⟨wInput2, 150⟩] : List Submission).length ∧
      ((runSubs hash0 [⟨wInput, 100⟩, ⟨wInput2, 150⟩] ⟨[], 0⟩).reports.filter
        (fun r => decide (r.canonical_id = some c.id))).length =
        ([⟨wInput, 100⟩, ⟨wInput2, 150⟩] : List Submission).length - 1 :=
  count_conservation hash0 wTenant wFp ⟨[], 0⟩ (by simp) (by simp)
    ⟨wInput, 100⟩ [⟨wInput2, 150⟩] (by decide)

end BRS
